import Mathlib

/-!
Shallow embedding of the substrate-kitties pallet
(`src/pallets/kitties/src/lib.rs`) and proofs about its claims.

Modelling conventions:
- `T::Hash`, `T::AccountId` and `BalanceOf<T>` are modelled as `Nat`.
  The content hash `T::Hashing::hash_of` is an arbitrary function
  parameter `hashOf : Kitty -> Nat`.
- Storage maps (`Kitties`, `KittiesOwned`, `DnaToKitty`) are association
  lists with insert-replaces semantics, matching `StorageMap::insert`.
  `KittiesOwned` is a `ValueQuery` map: a missing key reads as `[]`.
- `u8` dna bytes are `Nat` (byte-range hypotheses are carried where the
  claims need them); `u64` counter overflow is modelled with an explicit
  bound `u64max`.
- The Randomness Port is external: the values `gen_dna` / `gen_gender`
  would produce for a call are passed in as explicit oracle arguments.
- Fallible code returns `Except Error`; the `#[transactional]` dispatch
  semantics (all storage changes dropped when a call errors) is captured
  by `postState`, which keeps the pre-state on error.
-/

deriving instance DecidableEq for Except

namespace Kitties

/-- Gender of a kitty, as the source `Gender` enum. -/
inductive Gender where
  | Male : Gender
  | Female : Gender
deriving DecidableEq, Repr

/-- A kitty, as the source `Kitty<T>` struct: dna (16 bytes), optional
price, gender, owner account, optional bounded name. -/
structure Kitty where
  dna : List Nat
  price : Option Nat
  gender : Gender
  owner : Nat
  name : Option (List Nat)
deriving DecidableEq, Repr

/-- Error kinds of the pallet `Error<T>` enum, plus `CurrencyKeepAlive`
for a failure surfaced by the external Balance Port transfer. -/
inductive Error where
  | KittyCntOverflow : Error
  | ExceedMaxKittyOwned : Error
  | BuyerIsKittyOwner : Error
  | TransferToSelf : Error
  | KittyNotExist : Error
  | KittyExists : Error
  | NotKittyOwner : Error
  | KittyNotForSale : Error
  | KittyBidPriceTooLow : Error
  | NotEnoughBalance : Error
  | NameTooShort : Error
  | NameTooLong : Error
  | SameSex : Error
  | CurrencyKeepAlive : Error
deriving DecidableEq, Repr

/-- Events of the pallet `Event<T>` enum. -/
inductive Event where
  | Created : Nat → Nat → Event
  | PriceSet : Nat → Nat → Option Nat → Event
  | Transferred : Nat → Nat → Nat → Event
  | Bought : Nat → Nat → Nat → Nat → Event
deriving DecidableEq, Repr

/-- Runtime configuration constants of the pallet `Config` trait. -/
structure Cfg where
  maxKittyOwned : Nat
  minNameLength : Nat
  maxNameLength : Nat
deriving DecidableEq, Repr

/-- Association-list lookup (the storage map read). -/
def alookup {α β : Type} [DecidableEq α] (k : α) : List (α × β) → Option β
  | [] => none
  | (k0, v) :: t => if k0 = k then some v else alookup k t

/-- Association-list insert with replacement (the storage map write). -/
def ainsert {α β : Type} [DecidableEq α] (k : α) (v : β) : List (α × β) → List (α × β)
  | [] => [(k, v)]
  | (k0, v0) :: t => if k0 = k then (k, v) :: t else (k0, v0) :: ainsert k v t

/-- Full pallet storage plus the Balance Port ledger: `KittyCnt`,
`Kitties`, `KittiesOwned`, `DnaToKitty`, and account balances. -/
structure State where
  kittyCnt : Nat
  kitties : List (Nat × Kitty)
  kittiesOwned : List (Nat × List Nat)
  dnaToKitty : List (List Nat × Nat)
  balances : List (Nat × Nat)
deriving DecidableEq, Repr

/-- Read of the `ValueQuery` map `KittiesOwned`: missing keys read as `[]`. -/
def getOwned (s : State) (a : Nat) : List Nat :=
  (alookup a s.kittiesOwned).getD []

/-- Balance Port free-balance query (missing accounts hold 0). -/
def freeBalance (s : State) (a : Nat) : Nat :=
  (alookup a s.balances).getD 0

/-- The `u64::MAX` bound for the `KittyCnt` counter. -/
def u64max : Nat := 18446744073709551615

/-- First index of `id` in a list, as Rust `iter().position(...)`. -/
def findPos (id : Nat) : List Nat → Option Nat
  | [] => none
  | x :: xs => if x = id then some 0 else (findPos id xs).map (fun n => n + 1)

/-- Rust `Vec::swap_remove(i)`: overwrite position `i` with the last
element, then drop the last element. -/
def swapRemove {α : Type} (l : List α) (i : Nat) : List α :=
  match l.getLast? with
  | none => []
  | some z => (l.set i z).dropLast

/-- The per-byte crossover of `breed_dna`:
`(r AND d1) OR ((NOT r) AND d2)` on `u8`, with `NOT` as xor with 255. -/
def byteCombine (r d1 d2 : Nat) : Nat :=
  (r &&& d1) ||| ((255 ^^^ r) &&& d2)

/-- The crossover loop of `breed_dna` over the three byte arrays. -/
def combineDna : List Nat → List Nat → List Nat → List Nat
  | r :: rs, a :: l1, b :: l2 => byteCombine r a b :: combineDna rs l1 l2
  | _, _, _ => []

/-- The mint helper `Pallet::mint`. `gd`/`gg` are the oracle values the
Randomness Port would supply for `gen_dna` / `gen_gender` at this call;
they are used only when `dna` / `gender` are absent. Returns the new id
and the updated state. Check order follows the source: counter overflow,
id freshness, owner capacity, then the three storage writes. -/
def mint (cfg : Cfg) (hashOf : Kitty → Nat) (gd : List Nat) (gg : Gender)
    (owner : Nat) (dna : Option (List Nat)) (gender : Option Gender)
    (s : State) : Except Error (Nat × State) :=
  let kitty : Kitty :=
    { dna := dna.getD gd, price := none, gender := gender.getD gg,
      owner := owner, name := none }
  let kittyId := hashOf kitty
  if s.kittyCnt < u64max then
    match alookup kittyId s.kitties with
    | some _ => .error .KittyExists
    | none =>
      let owned := getOwned s owner
      if owned.length < cfg.maxKittyOwned then
        .ok (kittyId,
          { kittyCnt := s.kittyCnt + 1,
            kitties := ainsert kittyId kitty s.kitties,
            kittiesOwned := ainsert owner (owned ++ [kittyId]) s.kittiesOwned,
            dnaToKitty := ainsert kitty.dna kittyId s.dnaToKitty,
            balances := s.balances })
      else .error .ExceedMaxKittyOwned
  else .error .KittyCntOverflow

/-- The helper `Pallet::is_kitty_owner`. -/
def isKittyOwner (kid acct : Nat) (s : State) : Except Error Bool :=
  match alookup kid s.kitties with
  | some kitty => .ok (kitty.owner = acct)
  | none => .error .KittyNotExist

/-- The helper `Pallet::fetch_kitty_id`: dna-index lookup. -/
def fetchKittyId (s : State) (dna : List Nat) : Option Nat :=
  alookup dna s.dnaToKitty

/-- The helper `Pallet::transfer_kitty_to`: remove the id from the
previous owner's list by swap-remove, rewrite owner and clear the price,
then push the id onto the recipient's list (capacity-checked). -/
def transferKittyTo (cfg : Cfg) (kid dest : Nat) (s : State) : Except Error State :=
  match alookup kid s.kitties with
  | none => .error .KittyNotExist
  | some kitty =>
    let prevOwner := kitty.owner
    let owned := getOwned s prevOwner
    match findPos kid owned with
    | none => .error .KittyNotExist
    | some ind =>
      let s1 : State :=
        { s with kittiesOwned := ainsert prevOwner (swapRemove owned ind) s.kittiesOwned }
      let kitty2 : Kitty := { kitty with owner := dest, price := none }
      let s2 : State := { s1 with kitties := ainsert kid kitty2 s1.kitties }
      let toOwned := getOwned s2 dest
      if toOwned.length < cfg.maxKittyOwned then
        .ok { s2 with kittiesOwned := ainsert dest (toOwned ++ [kid]) s2.kittiesOwned }
      else .error .ExceedMaxKittyOwned

/-- Modelled from the spec: the Balance Port `transfer` with the
keep-alive policy (`Currency::transfer(..., ExistenceRequirement::KeepAlive)`),
whose implementation is not part of this repository. It debits `source`
and credits `dest` by `amount`, failing when `source` lacks the funds or
would drop below the minimum-required balance `ed`. -/
def currencyTransfer (ed source dest amount : Nat) (bals : List (Nat × Nat)) :
    Except Error (List (Nat × Nat)) :=
  let bf := (alookup source bals).getD 0
  if amount ≤ bf ∧ ed ≤ bf - amount then
    .ok (ainsert dest ((alookup dest (ainsert source (bf - amount) bals)).getD 0 + amount)
          (ainsert source (bf - amount) bals))
  else .error .CurrencyKeepAlive

/-- The helper `Pallet::add_kitty_name`: lookup, bounded conversion
(`NameTooLong` above capacity), minimum-length check, then write. -/
def addKittyName (cfg : Cfg) (kid : Nat) (name : List Nat) (s : State) :
    Except Error State :=
  match alookup kid s.kitties with
  | none => .error .KittyNotExist
  | some kitty =>
    if name.length ≤ cfg.maxNameLength then
      if cfg.minNameLength ≤ name.length then
        .ok { s with kitties := ainsert kid { kitty with name := some name } s.kitties }
      else .error .NameTooShort
    else .error .NameTooLong

/-- The dispatchable `create_kitty`: mint with both optional arguments
absent, then deposit a `Created` event. -/
def createKitty (cfg : Cfg) (hashOf : Kitty → Nat) (gd : List Nat) (gg : Gender)
    (sender : Nat) (s : State) : Except Error (State × List Event) :=
  match mint cfg hashOf gd gg sender none none s with
  | .error e => .error e
  | .ok (kittyId, s2) => .ok (s2, [Event.Created sender kittyId])

/-- The dispatchable `set_price`. -/
def setPrice (sender kid : Nat) (newPrice : Option Nat) (s : State) :
    Except Error (State × List Event) :=
  match isKittyOwner kid sender s with
  | .error e => .error e
  | .ok b =>
    if b then
      match alookup kid s.kitties with
      | none => .error .KittyNotExist
      | some kitty =>
        .ok ({ s with kitties := ainsert kid { kitty with price := newPrice } s.kitties },
          [Event.PriceSet sender kid newPrice])
    else .error .NotKittyOwner

/-- The dispatchable `transfer`. -/
def transferCall (cfg : Cfg) (sender dest kid : Nat) (s : State) :
    Except Error (State × List Event) :=
  match isKittyOwner kid sender s with
  | .error e => .error e
  | .ok b =>
    if b then
      if sender = dest then .error .TransferToSelf
      else
        if (getOwned s dest).length < cfg.maxKittyOwned then
          match transferKittyTo cfg kid dest s with
          | .error e => .error e
          | .ok s2 => .ok (s2, [Event.Transferred sender dest kid])
        else .error .ExceedMaxKittyOwned
    else .error .NotKittyOwner

/-- The dispatchable `buy_kitty` (`#[transactional]`), with checks in
source order: existence, buyer is not owner, for-sale and bid at least
ask, buyer free balance, buyer capacity; then the Balance Port transfer
and the ownership transfer. -/
def buyKitty (cfg : Cfg) (ed : Nat) (buyer kid bid : Nat) (s : State) :
    Except Error (State × List Event) :=
  match alookup kid s.kitties with
  | none => .error .KittyNotExist
  | some kitty =>
    if kitty.owner = buyer then .error .BuyerIsKittyOwner
    else
      match kitty.price with
      | none => .error .KittyNotForSale
      | some ask =>
        if ask ≤ bid then
          if bid ≤ freeBalance s buyer then
            if (getOwned s buyer).length < cfg.maxKittyOwned then
              match currencyTransfer ed buyer kitty.owner bid s.balances with
              | .error e => .error e
              | .ok bals2 =>
                match transferKittyTo cfg kid buyer { s with balances := bals2 } with
                | .error e => .error e
                | .ok s2 => .ok (s2, [Event.Bought buyer kitty.owner kid bid])
            else .error .ExceedMaxKittyOwned
          else .error .NotEnoughBalance
        else .error .KittyBidPriceTooLow

/-- The helper `Pallet::breed_dna`, with the fresh `gen_dna` draw `r`
passed as the randomness oracle value. -/
def breedDna (p1 p2 : Nat) (r : List Nat) (s : State) : Except Error (List Nat) :=
  match alookup p1 s.kitties with
  | none => .error .KittyNotExist
  | some k1 =>
    match alookup p2 s.kitties with
    | none => .error .KittyNotExist
    | some k2 => .ok (combineDna r k1.dna k2.dna)

/-- The dispatchable `breed_kitty`: existence of both parents, ownership
of both, distinct genders, crossover, then mint of the child (which
draws a fresh gender `gg`). Note the source deposits no event here. -/
def breedKitty (cfg : Cfg) (hashOf : Kitty → Nat) (r : List Nat) (gg : Gender)
    (sender p1 p2 : Nat) (s : State) : Except Error (State × List Event) :=
  match alookup p1 s.kitties, alookup p2 s.kitties with
  | some k1, some k2 =>
    match isKittyOwner p1 sender s with
    | .error e => .error e
    | .ok b1 =>
      if b1 then
        match isKittyOwner p2 sender s with
        | .error e => .error e
        | .ok b2 =>
          if b2 then
            if k1.gender = k2.gender then .error .SameSex
            else
              match breedDna p1 p2 r s with
              | .error e => .error e
              | .ok newDna =>
                match mint cfg hashOf [] gg sender (some newDna) none s with
                | .error e => .error e
                | .ok (_, s2) => .ok (s2, [])
          else .error .NotKittyOwner
      else .error .NotKittyOwner
  | _, _ => .error .KittyNotExist

/-- The dispatchable `name_kitty`: ownership check then `add_kitty_name`.
The source deposits no event here. -/
def nameKitty (cfg : Cfg) (sender kid : Nat) (name : List Nat) (s : State) :
    Except Error (State × List Event) :=
  match isKittyOwner kid sender s with
  | .error e => .error e
  | .ok b =>
    if b then
      match addKittyName cfg kid name s with
      | .error e => .error e
      | .ok s2 => .ok (s2, [])
    else .error .NotKittyOwner

/-- Post-call state under the transactional dispatch semantics: the new
state on success, the untouched pre-state on error. -/
def postState (s : State) (r : Except Error (State × List Event)) : State :=
  match r with
  | .ok (s2, _) => s2
  | .error _ => s

/-- Events of a successful call, `none` when the call failed. -/
def successEvents (r : Except Error (State × List Event)) : Option (List Event) :=
  match r with
  | .ok (_, evs) => some evs
  | .error _ => none

/-- Success test for an `Except` result. -/
def isOkE {α : Type} (r : Except Error α) : Bool :=
  match r with
  | .ok _ => true
  | .error _ => false


/-- Lookup after insert: the inserted key reads back the new value, any
other key is unaffected. -/
theorem alookup_ainsert {α β : Type} [DecidableEq α] (k q : α) (v : β) :
    ∀ m : List (α × β), alookup q (ainsert k v m) = if q = k then some v else alookup q m := by
  intro m
  induction m with
  | nil =>
    by_cases hq : q = k
    · simp [ainsert, alookup, hq]
    · simp [ainsert, alookup, hq, Ne.symm hq]
  | cons p t ih =>
    obtain ⟨k0, v0⟩ := p
    by_cases h0 : k0 = k
    · subst h0
      by_cases hq : q = k0
      · simp [ainsert, alookup, hq]
      · simp [ainsert, alookup, hq, Ne.symm hq]
    · by_cases hq : q = k0
      · subst hq
        simp [ainsert, alookup, h0]
      · simp [ainsert, alookup, h0, Ne.symm hq, ih]

/-- A successful `findPos` returns an in-range index holding the sought id. -/
theorem findPos_some {id : Nat} :
    ∀ {l : List Nat} {i : Nat}, findPos id l = some i →
      ∃ h : i < l.length, l.get ⟨i, h⟩ = id := by
  intro l
  induction l with
  | nil => intro i h; simp [findPos] at h
  | cons x xs ih =>
    intro i h
    by_cases hx : x = id
    · simp [findPos, hx] at h
      subst h
      exact ⟨Nat.succ_pos _, hx⟩
    · simp [findPos, hx] at h
      obtain ⟨j, hj, rfl⟩ := h
      obtain ⟨hlt, hget⟩ := ih hj
      exact ⟨Nat.succ_lt_succ hlt, hget⟩

/-- Swap-remove is removal up to permutation: the original list is a
permutation of the removed element consed onto the result. -/
theorem perm_get_cons_swapRemove {α : Type} :
    ∀ (l : List α) (i : Nat) (h : i < l.length), l.Perm (l.get ⟨i, h⟩ :: swapRemove l i) := by
  intro l
  induction l with
  | nil => intro i h; exact absurd h (Nat.not_lt_zero i)
  | cons x xs ih =>
    intro i h
    cases xs with
    | nil =>
      have hi : i = 0 := Nat.lt_one_iff.mp h
      subst hi
      simp [swapRemove]
    | cons y t =>
      cases i with
      | zero =>
        have hne : (y :: t) ≠ ([] : List α) := by simp
        have hz : (x :: y :: t).getLast? = some ((y :: t).getLast hne) := by
          rw [List.getLast?_cons_cons, List.getLast?_eq_getLast _ hne]
        have hsr : swapRemove (x :: y :: t) 0 =
            (y :: t).getLast hne :: (y :: t).dropLast := by
          simp [swapRemove, hz]
        rw [hsr]
        refine List.Perm.cons x ?_
        have hsplit : (y :: t).dropLast ++ [(y :: t).getLast hne] = y :: t :=
          List.dropLast_append_getLast hne
        have hp := List.perm_append_singleton ((y :: t).getLast hne) ((y :: t).dropLast)
        rw [hsplit] at hp
        exact hp
      | succ j =>
        have hne : (y :: t) ≠ ([] : List α) := by simp
        have hz : (x :: y :: t).getLast? = some ((y :: t).getLast hne) := by
          rw [List.getLast?_cons_cons, List.getLast?_eq_getLast _ hne]
        have hset : ((y :: t).set j ((y :: t).getLast hne)) ≠ ([] : List α) := by
          intro hc
          have := congrArg List.length hc
          simp at this
        have hsr : swapRemove (x :: y :: t) (j + 1) = x :: swapRemove (y :: t) j := by
          simp only [swapRemove, hz, List.getLast?_eq_getLast _ hne, List.set_cons_succ]
          exact List.dropLast_cons_of_ne_nil hset
        have hj : j < (y :: t).length := Nat.lt_of_succ_lt_succ h
        have hget : (x :: y :: t).get ⟨j + 1, h⟩ = (y :: t).get ⟨j, hj⟩ := rfl
        rw [hsr, hget]
        exact (List.Perm.cons x (ih j hj)).trans (List.Perm.swap _ _ _)

/-- Removing an id found by `findPos` from a duplicate-free list: the
result is duplicate-free, no longer contains the id, and keeps exactly
the other elements. -/
theorem removeOwned_spec {l : List Nat} {id i : Nat}
    (hn : l.Nodup) (hf : findPos id l = some i) :
    (swapRemove l i).Nodup ∧ id ∉ swapRemove l i ∧
      ∀ x, x ∈ swapRemove l i ↔ (x ∈ l ∧ x ≠ id) := by
  obtain ⟨hlt, hget⟩ := findPos_some hf
  have hperm := perm_get_cons_swapRemove l i hlt
  rw [hget] at hperm
  have hnodup : (id :: swapRemove l i).Nodup := hperm.nodup hn
  have hid : id ∉ swapRemove l i := (List.nodup_cons.mp hnodup).1
  refine ⟨(List.nodup_cons.mp hnodup).2, hid, ?_⟩
  intro x
  constructor
  · intro hx
    refine ⟨hperm.mem_iff.mpr (List.mem_cons_of_mem _ hx), ?_⟩
    intro he
    exact hid (he ▸ hx)
  · rintro ⟨hxl, hxne⟩
    rcases List.mem_cons.mp (hperm.mem_iff.mp hxl) with he | hm
    · exact absurd he hxne
    · exact hm
/-- The newly constructed asset of a `mint` call. -/
def mintedKitty (gd : List Nat) (gg : Gender) (owner : Nat)
    (dna : Option (List Nat)) (gender : Option Gender) : Kitty :=
  { dna := dna.getD gd, price := none, gender := gender.getD gg,
    owner := owner, name := none }

/-- The state written by a successful `mint`. -/
def mintedState (hashOf : Kitty → Nat) (gd : List Nat) (gg : Gender)
    (owner : Nat) (dna : Option (List Nat)) (gender : Option Gender)
    (s : State) : State :=
  { kittyCnt := s.kittyCnt + 1,
    kitties := ainsert (hashOf (mintedKitty gd gg owner dna gender))
      (mintedKitty gd gg owner dna gender) s.kitties,
    kittiesOwned := ainsert owner
      (getOwned s owner ++ [hashOf (mintedKitty gd gg owner dna gender)]) s.kittiesOwned,
    dnaToKitty := ainsert (mintedKitty gd gg owner dna gender).dna
      (hashOf (mintedKitty gd gg owner dna gender)) s.dnaToKitty,
    balances := s.balances }

/-- Characterization of a successful `mint`: the counter is below its
bound, the new id (the content hash of the constructed kitty) is absent,
the owner has spare capacity, and the post-state is the three-map write. -/
theorem mint_ok_iff (cfg : Cfg) (hashOf : Kitty → Nat) (gd : List Nat) (gg : Gender)
    (owner : Nat) (dna : Option (List Nat)) (gender : Option Gender)
    (s : State) (id : Nat) (s2 : State) :
    mint cfg hashOf gd gg owner dna gender s = .ok (id, s2) ↔
      (id = hashOf (mintedKitty gd gg owner dna gender) ∧
       s.kittyCnt < u64max ∧
       alookup id s.kitties = none ∧
       (getOwned s owner).length < cfg.maxKittyOwned ∧
       s2 = mintedState hashOf gd gg owner dna gender s) := by
  constructor
  · intro h
    simp only [mint] at h
    split at h
    · rename_i hcnt
      split at h
      · exact absurd h (by simp)
      · rename_i hnone
        split at h
        · rename_i hcap
          simp only [Except.ok.injEq, Prod.mk.injEq] at h
          obtain ⟨hid, hs2⟩ := h
          subst hid
          exact ⟨rfl, hcnt, hnone, hcap, hs2.symm ▸ rfl⟩
        · exact absurd h (by simp)
    · exact absurd h (by simp)
  · rintro ⟨hid, hcnt, hfresh, hcap, hs2⟩
    subst hid
    subst hs2
    simp only [mintedKitty] at hfresh
    simp only [mint, hcnt, if_true, hfresh, hcap, if_true]
    simp [mintedState, mintedKitty]

/-- The registry invariant: each existing asset is listed in its owner
account and in no other, each listed id exists, and each owner list is
duplicate-free. -/
def StateInv (s : State) : Prop :=
  (∀ id k, alookup id s.kitties = some k →
     id ∈ getOwned s k.owner ∧ ∀ a, id ∈ getOwned s a → a = k.owner) ∧
  (∀ a id, id ∈ getOwned s a → ∃ k, alookup id s.kitties = some k) ∧
  (∀ a, (getOwned s a).Nodup)

/-- A successful `mint` preserves the registry invariant. -/
theorem mint_preserves_inv {cfg : Cfg} {hashOf : Kitty → Nat} {gd : List Nat}
    {gg : Gender} {owner : Nat} {dna : Option (List Nat)} {gender : Option Gender}
    {s : State} {id : Nat} {s2 : State}
    (hs : StateInv s) (h : mint cfg hashOf gd gg owner dna gender s = .ok (id, s2)) :
    StateInv s2 := by
  obtain ⟨hown, hext, hnd⟩ := hs
  obtain ⟨hid, hcnt, hfresh, hcap, hs2⟩ := (mint_ok_iff _ _ _ _ _ _ _ _ _ _).mp h
  subst hs2
  have hidk : hashOf (mintedKitty gd gg owner dna gender) = id := hid.symm
  have hfreshOwned : ∀ a, id ∉ getOwned s a := by
    intro a hmem
    obtain ⟨k, hk⟩ := hext a id hmem
    rw [hfresh] at hk
    cases hk
  have hgo : ∀ a, getOwned (mintedState hashOf gd gg owner dna gender s) a =
      if a = owner then getOwned s owner ++ [id] else getOwned s a := by
    intro a
    by_cases ha : a = owner
    · simp [getOwned, mintedState, alookup_ainsert, ha, hidk]
    · simp [getOwned, mintedState, alookup_ainsert, ha]
  have hlk : ∀ j, alookup j (mintedState hashOf gd gg owner dna gender s).kitties =
      if j = id then some (mintedKitty gd gg owner dna gender) else alookup j s.kitties := by
    intro j
    simp only [mintedState, hidk]
    exact alookup_ainsert id j _ s.kitties
  refine ⟨?_, ?_, ?_⟩
  · intro j k hk
    rw [hlk j] at hk
    by_cases hj : j = id
    · rw [if_pos hj] at hk
      subst hj
      obtain rfl : mintedKitty gd gg owner dna gender = k := by
        injection hk
      constructor
      · rw [hgo]
        simp [mintedKitty]
      · intro a ha
        rw [hgo a] at ha
        by_cases hao : a = owner
        · simpa [mintedKitty] using hao
        · rw [if_neg hao] at ha
          exact absurd ha (hfreshOwned a)
    · rw [if_neg hj] at hk
      obtain ⟨hmem, huniq⟩ := hown j k hk
      constructor
      · rw [hgo]
        by_cases hko : k.owner = owner
        · simp [hko, List.mem_append, hko ▸ hmem]
        · simp [hko, hmem]
      · intro a ha
        rw [hgo a] at ha
        by_cases hao : a = owner
        · rw [if_pos hao] at ha
          rcases List.mem_append.mp ha with hin | hsing
          · rw [hao]
            exact huniq owner hin
          · simp at hsing
            exact absurd hsing hj
        · rw [if_neg hao] at ha
          exact huniq a ha
  · intro a j hj
    rw [hgo a] at hj
    by_cases hao : a = owner
    · rw [if_pos hao] at hj
      rcases List.mem_append.mp hj with hin | hsing
      · obtain ⟨k, hk⟩ := hext owner j hin
        refine ⟨k, ?_⟩
        rw [hlk j, if_neg ?_]
        · exact hk
        · intro hje
          subst hje
          exact hfreshOwned owner hin
      · simp at hsing
        subst hsing
        refine ⟨mintedKitty gd gg owner dna gender, ?_⟩
        rw [hlk]
        simp
    · rw [if_neg hao] at hj
      obtain ⟨k, hk⟩ := hext a j hj
      refine ⟨k, ?_⟩
      rw [hlk j, if_neg ?_]
      · exact hk
      · intro hje
        subst hje
        exact hfreshOwned a hj
  · intro a
    rw [hgo a]
    by_cases hao : a = owner
    · rw [if_pos hao]
      rw [List.nodup_append]
      refine ⟨hnd owner, by simp, ?_⟩
      intro x hx hxid
      simp at hxid
      subst hxid
      exact hfreshOwned owner hx
    · rw [if_neg hao]
      exact hnd a
/-- The state written by a successful `transfer_kitty_to`. -/
def transferredState (kid dest : Nat) (kitty : Kitty) (ind : Nat) (s : State) : State :=
  let s1 : State :=
    { s with kittiesOwned :=
        ainsert kitty.owner (swapRemove (getOwned s kitty.owner) ind) s.kittiesOwned }
  let s2 : State :=
    { s1 with kitties := ainsert kid { kitty with owner := dest, price := none } s1.kitties }
  { s2 with kittiesOwned := ainsert dest (getOwned s2 dest ++ [kid]) s2.kittiesOwned }

/-- Inversion of a successful `transfer_kitty_to`: the asset exists, its
id sits at position `ind` of the previous owner's list, the recipient
list (after the removal write) has spare capacity, and the post-state is
`transferredState`. -/
theorem transferKittyTo_ok_elim {cfg : Cfg} {kid dest : Nat} {s s2 : State}
    (h : transferKittyTo cfg kid dest s = .ok s2) :
    ∃ kitty ind,
      alookup kid s.kitties = some kitty ∧
      findPos kid (getOwned s kitty.owner) = some ind ∧
      ((if dest = kitty.owner then swapRemove (getOwned s kitty.owner) ind
        else getOwned s dest).length < cfg.maxKittyOwned) ∧
      s2 = transferredState kid dest kitty ind s := by
  simp only [transferKittyTo] at h
  split at h
  · exact absurd h (by simp)
  · rename_i kitty hk
    split at h
    · exact absurd h (by simp)
    · rename_i ind hfind
      split at h
      · rename_i hcap
        refine ⟨kitty, ind, hk, hfind, ?_, ?_⟩
        · by_cases hd : dest = kitty.owner
          · simpa [getOwned, alookup_ainsert, hd] using hcap
          · simpa [getOwned, alookup_ainsert, hd] using hcap
        · injection h with h2
          rw [← h2]
          rfl
      · exact absurd h (by simp)

/-- Per-account contents of the owner index after `transfer_kitty_to`. -/
theorem transferredState_getOwned (kid dest : Nat) (kitty : Kitty) (ind : Nat)
    (s : State) (a : Nat) :
    getOwned (transferredState kid dest kitty ind s) a =
      if a = dest then
        (if dest = kitty.owner then swapRemove (getOwned s kitty.owner) ind
         else getOwned s dest) ++ [kid]
      else if a = kitty.owner then swapRemove (getOwned s kitty.owner) ind
      else getOwned s a := by
  by_cases h1 : a = dest
  · by_cases h3 : dest = kitty.owner
    · simp [transferredState, getOwned, alookup_ainsert, h1, h3]
    · simp [transferredState, getOwned, alookup_ainsert, h1, h3]
  · by_cases h2 : a = kitty.owner
    · by_cases h3 : dest = kitty.owner
      · exact absurd (h3.trans h2.symm).symm h1
      · simp [transferredState, getOwned, alookup_ainsert, h1, h2, h3, Ne.symm h3]
    · simp [transferredState, getOwned, alookup_ainsert, h1, h2]

/-- Asset-map contents after `transfer_kitty_to`. -/
theorem transferredState_alookup (kid dest : Nat) (kitty : Kitty) (ind : Nat)
    (s : State) (j : Nat) :
    alookup j (transferredState kid dest kitty ind s).kitties =
      if j = kid then some { kitty with owner := dest, price := none }
      else alookup j s.kitties := by
  simp only [transferredState]
  exact alookup_ainsert kid j _ s.kitties
/-- A successful `transfer_kitty_to` preserves the registry invariant. -/
theorem transferKittyTo_preserves_inv {cfg : Cfg} {kid dest : Nat} {s s2 : State}
    (hs : StateInv s) (h : transferKittyTo cfg kid dest s = .ok s2) :
    StateInv s2 := by
  obtain ⟨hown, hext, hnd⟩ := hs
  obtain ⟨kitty, ind, hk, hfind, hcap, rfl⟩ := transferKittyTo_ok_elim h
  obtain ⟨hnd2, hkidout, hmem2⟩ := removeOwned_spec (hnd kitty.owner) hfind
  obtain ⟨hkidmem, hkiduniq⟩ := hown kid kitty hk
  have hgo := transferredState_getOwned kid dest kitty ind s
  have hlk := transferredState_alookup kid dest kitty ind s
  refine ⟨?_, ?_, ?_⟩
  · intro j k hkj
    rw [hlk j] at hkj
    by_cases hj : j = kid
    · rw [if_pos hj] at hkj
      obtain rfl : { kitty with owner := dest, price := none } = k := by injection hkj
      subst hj
      constructor
      · rw [hgo]
        simp
      · intro a ha
        rw [hgo a] at ha
        by_cases had : a = dest
        · simpa using had
        · rw [if_neg had] at ha
          by_cases hap : a = kitty.owner
          · rw [if_pos hap] at ha
            exact absurd ha hkidout
          · rw [if_neg hap] at ha
            exact absurd (hkiduniq a ha) hap
    · rw [if_neg hj] at hkj
      obtain ⟨hjmem, hjuniq⟩ := hown j k hkj
      constructor
      · rw [hgo]
        by_cases hko : k.owner = dest
        · rw [if_pos hko]
          apply List.mem_append_left
          by_cases hdp : dest = kitty.owner
          · rw [if_pos hdp]
            refine (hmem2 j).mpr ⟨?_, hj⟩
            rw [← hdp, ← hko]
            exact hjmem
          · rw [if_neg hdp, ← hko]
            exact hjmem
        · rw [if_neg hko]
          by_cases hkp : k.owner = kitty.owner
          · rw [if_pos hkp]
            refine (hmem2 j).mpr ⟨?_, hj⟩
            rw [← hkp]
            exact hjmem
          · rw [if_neg hkp]
            exact hjmem
      · intro a ha
        rw [hgo a] at ha
        by_cases had : a = dest
        · rw [if_pos had] at ha
          rcases List.mem_append.mp ha with hin | hsing
          · by_cases hdp : dest = kitty.owner
            · rw [if_pos hdp] at hin
              have hjo := ((hmem2 j).mp hin).1
              rw [had, hdp]
              exact hjuniq kitty.owner hjo
            · rw [if_neg hdp] at hin
              rw [had]
              exact hjuniq dest hin
          · simp at hsing
            exact absurd hsing hj
        · rw [if_neg had] at ha
          by_cases hap : a = kitty.owner
          · rw [if_pos hap] at ha
            have hjo := ((hmem2 j).mp ha).1
            rw [hap]
            exact hjuniq kitty.owner hjo
          · rw [if_neg hap] at ha
            exact hjuniq a ha
  · intro a j hj2
    rw [hgo a] at hj2
    by_cases hjk : j = kid
    · refine ⟨{ kitty with owner := dest, price := none }, ?_⟩
      rw [hlk j, if_pos hjk]
    · have hjold : ∃ b, j ∈ getOwned s b := by
        by_cases had : a = dest
        · rw [if_pos had] at hj2
          rcases List.mem_append.mp hj2 with hin | hsing
          · by_cases hdp : dest = kitty.owner
            · rw [if_pos hdp] at hin
              exact ⟨kitty.owner, ((hmem2 j).mp hin).1⟩
            · rw [if_neg hdp] at hin
              exact ⟨dest, hin⟩
          · simp at hsing
            exact absurd hsing hjk
        · rw [if_neg had] at hj2
          by_cases hap : a = kitty.owner
          · rw [if_pos hap] at hj2
            exact ⟨kitty.owner, ((hmem2 j).mp hj2).1⟩
          · rw [if_neg hap] at hj2
            exact ⟨a, hj2⟩
      obtain ⟨b, hb⟩ := hjold
      obtain ⟨k, hkk⟩ := hext b j hb
      refine ⟨k, ?_⟩
      rw [hlk j, if_neg hjk]
      exact hkk
  · intro a
    rw [hgo a]
    by_cases had : a = dest
    · rw [if_pos had]
      rw [List.nodup_append]
      refine ⟨?_, by simp, ?_⟩
      · by_cases hdp : dest = kitty.owner
        · rw [if_pos hdp]
          exact hnd2
        · rw [if_neg hdp]
          exact hnd dest
      · intro x hx hxk
        simp at hxk
        subst hxk
        by_cases hdp : dest = kitty.owner
        · rw [if_pos hdp] at hx
          exact hkidout hx
        · rw [if_neg hdp] at hx
          exact hdp (hkiduniq dest hx)
    · rw [if_neg had]
      by_cases hap : a = kitty.owner
      · rw [if_pos hap]
        exact hnd2
      · rw [if_neg hap]
        exact hnd a
/-- Rewriting one asset's non-owner fields preserves the invariant. -/
theorem inv_update_samefield {s : State} {kid : Nat} {kitty k2 : Kitty}
    (hs : StateInv s) (hk : alookup kid s.kitties = some kitty)
    (how : k2.owner = kitty.owner) :
    StateInv { s with kitties := ainsert kid k2 s.kitties } := by
  obtain ⟨hown, hext, hnd⟩ := hs
  have hlk : ∀ j, alookup j (ainsert kid k2 s.kitties) =
      if j = kid then some k2 else alookup j s.kitties :=
    fun j => alookup_ainsert kid j k2 s.kitties
  have hgo : ∀ a, getOwned { s with kitties := ainsert kid k2 s.kitties } a = getOwned s a :=
    fun a => rfl
  refine ⟨?_, ?_, ?_⟩
  · intro j k hkj
    replace hkj : alookup j (ainsert kid k2 s.kitties) = some k := hkj
    rw [hlk j] at hkj
    by_cases hj : j = kid
    · rw [if_pos hj] at hkj
      obtain rfl : k2 = k := by injection hkj
      obtain ⟨hm, hu⟩ := hown kid kitty hk
      subst hj
      constructor
      · rw [hgo, how]
        exact hm
      · intro a ha
        rw [hgo] at ha
        rw [how]
        exact hu a ha
    · rw [if_neg hj] at hkj
      obtain ⟨hm, hu⟩ := hown j k hkj
      constructor
      · rw [hgo]
        exact hm
      · intro a ha
        rw [hgo] at ha
        exact hu a ha
  · intro a j hj
    rw [hgo] at hj
    obtain ⟨k, hk2⟩ := hext a j hj
    by_cases hjk : j = kid
    · refine ⟨k2, ?_⟩
      show alookup j (ainsert kid k2 s.kitties) = some k2
      rw [hlk j, if_pos hjk]
    · refine ⟨k, ?_⟩
      show alookup j (ainsert kid k2 s.kitties) = some k
      rw [hlk j, if_neg hjk]
      exact hk2
  · intro a
    rw [hgo]
    exact hnd a

/-- The invariant ignores the balance ledger. -/
theorem inv_balances {s : State} {b : List (Nat × Nat)}
    (hs : StateInv s) : StateInv { s with balances := b } := hs

/-- One admitted call of the transition engine (any public operation,
with arbitrary oracle inputs for hashing and randomness). -/
inductive Step (cfg : Cfg) (ed : Nat) : State → State → Prop where
  | mintStep (hashOf : Kitty → Nat) (gd : List Nat) (gg : Gender) (owner : Nat)
      (dna : Option (List Nat)) (gender : Option Gender) (s : State) (id : Nat)
      (s2 : State) (h : mint cfg hashOf gd gg owner dna gender s = .ok (id, s2)) :
      Step cfg ed s s2
  | createStep (hashOf : Kitty → Nat) (gd : List Nat) (gg : Gender) (sender : Nat)
      (s s2 : State) (evs : List Event)
      (h : createKitty cfg hashOf gd gg sender s = .ok (s2, evs)) : Step cfg ed s s2
  | setPriceStep (sender kid : Nat) (p : Option Nat) (s s2 : State) (evs : List Event)
      (h : setPrice sender kid p s = .ok (s2, evs)) : Step cfg ed s s2
  | transferStep (sender dest kid : Nat) (s s2 : State) (evs : List Event)
      (h : transferCall cfg sender dest kid s = .ok (s2, evs)) : Step cfg ed s s2
  | buyStep (buyer kid bid : Nat) (s s2 : State) (evs : List Event)
      (h : buyKitty cfg ed buyer kid bid s = .ok (s2, evs)) : Step cfg ed s s2
  | breedStep (hashOf : Kitty → Nat) (r : List Nat) (gg : Gender) (sender p1 p2 : Nat)
      (s s2 : State) (evs : List Event)
      (h : breedKitty cfg hashOf r gg sender p1 p2 s = .ok (s2, evs)) : Step cfg ed s s2
  | nameStep (sender kid : Nat) (nm : List Nat) (s s2 : State) (evs : List Event)
      (h : nameKitty cfg sender kid nm s = .ok (s2, evs)) : Step cfg ed s s2

/-- States reachable from a genesis registry (empty, with an arbitrary
initial balance ledger) through the public operations. -/
inductive Reachable (cfg : Cfg) (ed : Nat) : State → Prop where
  | genesis (bals : List (Nat × Nat)) :
      Reachable cfg ed
        { kittyCnt := 0, kitties := [], kittiesOwned := [], dnaToKitty := [], balances := bals }
  | step {s s2 : State} (hr : Reachable cfg ed s) (hs : Step cfg ed s s2) :
      Reachable cfg ed s2

/-- The genesis registry satisfies the invariant. -/
theorem stateInv_genesis (bals : List (Nat × Nat)) :
    StateInv { kittyCnt := 0, kitties := [], kittiesOwned := [],
               dnaToKitty := [], balances := bals } := by
  refine ⟨?_, ?_, ?_⟩
  · intro id k hk
    simp [alookup] at hk
  · intro a id hid
    simp [getOwned, alookup] at hid
  · intro a
    simp [getOwned, alookup]

/-- Inversion of a successful `create_kitty` into its mint. -/
theorem createKitty_ok_elim {cfg : Cfg} {hashOf : Kitty → Nat} {gd : List Nat}
    {gg : Gender} {sender : Nat} {s s2 : State} {evs : List Event}
    (h : createKitty cfg hashOf gd gg sender s = .ok (s2, evs)) :
    ∃ id, mint cfg hashOf gd gg sender none none s = .ok (id, s2) ∧
      evs = [Event.Created sender id] := by
  simp only [createKitty] at h
  split at h
  · exact absurd h (by simp)
  · rename_i id s3 hm
    simp only [Except.ok.injEq, Prod.mk.injEq] at h
    obtain ⟨h1, h2⟩ := h
    subst h1
    subst h2
    exact ⟨id, hm, rfl⟩

/-- Inversion of a successful `set_price`. -/
theorem setPrice_ok_elim {sender kid : Nat} {p : Option Nat} {s s2 : State}
    {evs : List Event} (h : setPrice sender kid p s = .ok (s2, evs)) :
    ∃ kitty, alookup kid s.kitties = some kitty ∧ kitty.owner = sender ∧
      s2 = { s with kitties := ainsert kid { kitty with price := p } s.kitties } ∧
      evs = [Event.PriceSet sender kid p] := by
  simp only [setPrice] at h
  split at h
  · exact absurd h (by simp)
  · rename_i b hb
    split at h
    · rename_i hbt
      split at h
      · exact absurd h (by simp)
      · rename_i kitty hk
        simp only [Except.ok.injEq, Prod.mk.injEq] at h
        obtain ⟨h1, h2⟩ := h
        have hown2 : kitty.owner = sender := by
          simp only [isKittyOwner, hk] at hb
          injection hb with hb2
          rw [← hb2] at hbt
          exact of_decide_eq_true hbt
        exact ⟨kitty, hk, hown2, h1.symm, h2.symm⟩
    · exact absurd h (by simp)

/-- Inversion of a successful `transfer` into its `transfer_kitty_to`. -/
theorem transferCall_ok_elim {cfg : Cfg} {sender dest kid : Nat} {s s2 : State}
    {evs : List Event} (h : transferCall cfg sender dest kid s = .ok (s2, evs)) :
    transferKittyTo cfg kid dest s = .ok s2 ∧ evs = [Event.Transferred sender dest kid] := by
  simp only [transferCall] at h
  split at h
  · exact absurd h (by simp)
  · rename_i b hb
    split at h
    · split at h
      · exact absurd h (by simp)
      · split at h
        · split at h
          · exact absurd h (by simp)
          · rename_i s3 ht
            simp only [Except.ok.injEq, Prod.mk.injEq] at h
            obtain ⟨h1, h2⟩ := h
            subst h1
            subst h2
            exact ⟨ht, rfl⟩
        · exact absurd h (by simp)
    · exact absurd h (by simp)

/-- Inversion of a successful `buy_kitty` into its `transfer_kitty_to`
applied after the Balance Port debit/credit. -/
theorem buyKitty_ok_elim {cfg : Cfg} {ed buyer kid bid : Nat} {s s2 : State}
    {evs : List Event} (h : buyKitty cfg ed buyer kid bid s = .ok (s2, evs)) :
    ∃ bals2, transferKittyTo cfg kid buyer { s with balances := bals2 } = .ok s2 := by
  simp only [buyKitty] at h
  split at h
  · exact absurd h (by simp)
  · rename_i kitty hk
    split at h
    · exact absurd h (by simp)
    · split at h
      · exact absurd h (by simp)
      · rename_i ask hask
        split at h
        · split at h
          · split at h
            · split at h
              · exact absurd h (by simp)
              · rename_i bals2 hct
                split at h
                · exact absurd h (by simp)
                · rename_i s3 ht
                  simp only [Except.ok.injEq, Prod.mk.injEq] at h
                  obtain ⟨h1, h2⟩ := h
                  subst h1
                  exact ⟨bals2, ht⟩
            · exact absurd h (by simp)
          · exact absurd h (by simp)
        · exact absurd h (by simp)

/-- Inversion of a successful `breed_kitty` into its mint. -/
theorem breedKitty_ok_elim {cfg : Cfg} {hashOf : Kitty → Nat} {r : List Nat}
    {gg : Gender} {sender p1 p2 : Nat} {s s2 : State} {evs : List Event}
    (h : breedKitty cfg hashOf r gg sender p1 p2 s = .ok (s2, evs)) :
    ∃ newDna id, mint cfg hashOf [] gg sender (some newDna) none s = .ok (id, s2) ∧
      evs = [] := by
  cases hk1 : alookup p1 s.kitties with
  | none => simp [breedKitty, hk1] at h
  | some k1 =>
    cases hk2 : alookup p2 s.kitties with
    | none => simp [breedKitty, hk1, hk2] at h
    | some k2 =>
      simp only [breedKitty, hk1, hk2] at h
      split at h
      · exact absurd h (by simp)
      · rename_i b1 hb1
        split at h
        · split at h
          · exact absurd h (by simp)
          · rename_i b2 hb2
            split at h
            · split at h
              · exact absurd h (by simp)
              · split at h
                · exact absurd h (by simp)
                · rename_i newDna hbd
                  split at h
                  · exact absurd h (by simp)
                  · rename_i id s3 hm
                    simp only [Except.ok.injEq, Prod.mk.injEq] at h
                    obtain ⟨h1, h2⟩ := h
                    subst h1
                    subst h2
                    exact ⟨newDna, id, hm, rfl⟩
            · exact absurd h (by simp)
        · exact absurd h (by simp)

/-- Inversion of a successful `add_kitty_name`. -/
theorem addKittyName_ok_elim {cfg : Cfg} {kid : Nat} {nm : List Nat} {s s2 : State}
    (h : addKittyName cfg kid nm s = .ok s2) :
    ∃ kitty, alookup kid s.kitties = some kitty ∧
      nm.length ≤ cfg.maxNameLength ∧ cfg.minNameLength ≤ nm.length ∧
      s2 = { s with kitties := ainsert kid { kitty with name := some nm } s.kitties } := by
  simp only [addKittyName] at h
  split at h
  · exact absurd h (by simp)
  · rename_i kitty hk
    split at h
    · rename_i hlong
      split at h
      · rename_i hshort
        simp only [Except.ok.injEq] at h
        exact ⟨kitty, hk, hlong, hshort, h.symm⟩
      · exact absurd h (by simp)
    · exact absurd h (by simp)

/-- Inversion of a successful `name_kitty`. -/
theorem nameKitty_ok_elim {cfg : Cfg} {sender kid : Nat} {nm : List Nat} {s s2 : State}
    {evs : List Event} (h : nameKitty cfg sender kid nm s = .ok (s2, evs)) :
    ∃ kitty, alookup kid s.kitties = some kitty ∧
      s2 = { s with kitties := ainsert kid { kitty with name := some nm } s.kitties } := by
  simp only [nameKitty] at h
  split at h
  · exact absurd h (by simp)
  · rename_i b hb
    split at h
    · split at h
      · exact absurd h (by simp)
      · rename_i s3 ha
        simp only [Except.ok.injEq, Prod.mk.injEq] at h
        obtain ⟨h1, h2⟩ := h
        subst h1
        obtain ⟨kitty, hk, h3, h4, h5⟩ := addKittyName_ok_elim ha
        exact ⟨kitty, hk, h5⟩
    · exact absurd h (by simp)

/-- Every admitted call preserves the registry invariant. -/
theorem step_preserves_inv {cfg : Cfg} {ed : Nat} {s s2 : State}
    (hs : StateInv s) (h : Step cfg ed s s2) : StateInv s2 := by
  cases h with
  | mintStep hashOf gd gg owner dna gender s id s2 hm =>
    exact mint_preserves_inv hs hm
  | createStep hashOf gd gg sender s s2 evs hc =>
    obtain ⟨id, hm, -⟩ := createKitty_ok_elim hc
    exact mint_preserves_inv hs hm
  | setPriceStep sender kid p s s2 evs hp =>
    obtain ⟨kitty, hk, -, rfl, -⟩ := setPrice_ok_elim hp
    exact inv_update_samefield hs hk rfl
  | transferStep sender dest kid s s2 evs ht =>
    exact transferKittyTo_preserves_inv hs (transferCall_ok_elim ht).1
  | buyStep buyer kid bid s s2 evs hb =>
    obtain ⟨bals2, ht⟩ := buyKitty_ok_elim hb
    exact transferKittyTo_preserves_inv (inv_balances hs) ht
  | breedStep hashOf r gg sender p1 p2 s s2 evs hb =>
    obtain ⟨newDna, id, hm, -⟩ := breedKitty_ok_elim hb
    exact mint_preserves_inv hs hm
  | nameStep sender kid nm s s2 evs hn =>
    obtain ⟨kitty, hk, rfl⟩ := nameKitty_ok_elim hn
    exact inv_update_samefield hs hk rfl

/-- Every reachable state satisfies the registry invariant. -/
theorem reachable_inv {cfg : Cfg} {ed : Nat} {s : State}
    (h : Reachable cfg ed s) : StateInv s := by
  induction h with
  | genesis bals => exact stateInv_genesis bals
  | step hr hst ih => exact step_preserves_inv ih hst
/-- Bit-level reading of the crossover byte operation: where the random
byte has a 1 bit the child inherits parent1's bit, elsewhere parent2's. -/
theorem byteCombine_testBit {r d1 d2 : Nat} (hr : r < 256) (h1 : d1 < 256)
    (h2 : d2 < 256) (j : Nat) :
    (byteCombine r d1 d2).testBit j =
      if r.testBit j then d1.testBit j else d2.testBit j := by
  have h255 : (255 : Nat) = 2 ^ 8 - 1 := rfl
  by_cases hj : j < 8
  · simp only [byteCombine, Nat.testBit_or, Nat.testBit_and, Nat.testBit_xor, h255,
      Nat.testBit_two_pow_sub_one, hj, decide_True, Bool.true_xor]
    cases hrb : r.testBit j <;> simp
  · have hpow : (256 : Nat) ≤ 2 ^ j := by
      calc (256 : Nat) = 2 ^ 8 := rfl
        _ ≤ 2 ^ j := Nat.pow_le_pow_right (by decide) (Nat.le_of_not_lt hj)
    have hr8 : r.testBit j = false :=
      Nat.testBit_lt_two_pow (Nat.lt_of_lt_of_le hr hpow)
    have h18 : d1.testBit j = false :=
      Nat.testBit_lt_two_pow (Nat.lt_of_lt_of_le h1 hpow)
    have h28 : d2.testBit j = false :=
      Nat.testBit_lt_two_pow (Nat.lt_of_lt_of_le h2 hpow)
    simp only [byteCombine, Nat.testBit_or, Nat.testBit_and, Nat.testBit_xor, h255,
      Nat.testBit_two_pow_sub_one, hj, decide_False, Bool.false_xor, hr8, h18, h28]
    simp

/-- The crossover list never outruns any of its three inputs. -/
theorem combineDna_length : ∀ (r d1 d2 : List Nat),
    (combineDna r d1 d2).length ≤ r.length ∧
    (combineDna r d1 d2).length ≤ d1.length ∧
    (combineDna r d1 d2).length ≤ d2.length := by
  intro r
  induction r with
  | nil => intro d1 d2; simp [combineDna]
  | cons x xs ih =>
    intro d1 d2
    cases d1 with
    | nil => simp [combineDna]
    | cons a l1 =>
      cases d2 with
      | nil => simp [combineDna]
      | cons b l2 =>
        obtain ⟨ha, hb, hc⟩ := ih l1 l2
        simp only [combineDna, List.length_cons]
        exact ⟨Nat.succ_le_succ ha, Nat.succ_le_succ hb, Nat.succ_le_succ hc⟩

/-- Pointwise reading of the crossover list. -/
theorem combineDna_getD : ∀ (r d1 d2 : List Nat) (i : Nat),
    i < (combineDna r d1 d2).length →
    (combineDna r d1 d2).getD i 0 =
      byteCombine (r.getD i 0) (d1.getD i 0) (d2.getD i 0) := by
  intro r
  induction r with
  | nil => intro d1 d2 i hi; simp [combineDna] at hi
  | cons x xs ih =>
    intro d1 d2 i hi
    cases d1 with
    | nil => simp [combineDna] at hi
    | cons a l1 =>
      cases d2 with
      | nil => simp [combineDna] at hi
      | cons b l2 =>
        cases i with
        | zero => simp [combineDna]
        | succ i2 =>
          simp only [combineDna, List.length_cons] at hi
          simp only [combineDna, List.getD_cons_succ]
          exact ih l1 l2 i2 (Nat.lt_of_succ_lt_succ hi)

/-- Elements of the three input lists at a valid crossover index are
list members (to transport byte-range hypotheses). -/
theorem getD_mem_of_lt {l : List Nat} {i : Nat} (h : i < l.length) : l.getD i 0 ∈ l := by
  rw [List.getD_eq_getElem l 0 h]
  exact List.getElem_mem h
/-- Test configuration: up to 3 kitties per account, names of 2 to 5 bytes. -/
def cfg0 : Cfg := { maxKittyOwned := 3, minNameLength := 2, maxNameLength := 5 }

/-- A concrete content-hash oracle for witnesses. -/
def hashHead : Kitty → Nat := fun k => k.dna.headD 0

/-- The empty genesis state. -/
def emptyState : State :=
  { kittyCnt := 0, kitties := [], kittiesOwned := [], dnaToKitty := [], balances := [] }

/-- A pre-state for the buy atomicity witness: the asset exists and is
priced, the buyer is funded, but the owner index lacks the id, so the
ownership-transfer step fails after the balance transfer succeeded. -/
def buyCexState : State :=
  { kittyCnt := 1,
    kitties := [(5, { dna := [1], price := some 10, gender := Gender.Male,
                      owner := 1, name := none })],
    kittiesOwned := [],
    dnaToKitty := [([1], 5)],
    balances := [(2, 100)] }

/-- C1: buy is all-or-nothing. Whenever `buy_kitty` reports any error —
including a failure at the balance-transfer step or at the
ownership-transfer step, after earlier mutating steps ran — the
post-call registry state (totalCount, assets, ownerIndex, dnaIndex) and
the balance state under the transactional dispatch semantics are exactly
the pre-call state. -/
theorem buy_all_or_nothing (cfg : Cfg) (ed buyer kid bid : Nat) (s : State) (e : Error)
    (h : buyKitty cfg ed buyer kid bid s = .error e) :
    (postState s (buyKitty cfg ed buyer kid bid s)).kittyCnt = s.kittyCnt ∧
    (postState s (buyKitty cfg ed buyer kid bid s)).kitties = s.kitties ∧
    (postState s (buyKitty cfg ed buyer kid bid s)).kittiesOwned = s.kittiesOwned ∧
    (postState s (buyKitty cfg ed buyer kid bid s)).dnaToKitty = s.dnaToKitty ∧
    (postState s (buyKitty cfg ed buyer kid bid s)).balances = s.balances := by
  rw [h]
  exact ⟨rfl, rfl, rfl, rfl, rfl⟩

/-- Witness for C1: in `buyCexState` the Balance Port transfer succeeds,
the subsequent ownership transfer fails, and the post-call state equals
the pre-call state field by field. -/
theorem buy_all_or_nothing_witness :
    isOkE (currencyTransfer 0 2 1 10 buyCexState.balances) = true ∧
    buyKitty cfg0 0 2 5 10 buyCexState = .error Error.KittyNotExist ∧
    ((postState buyCexState (buyKitty cfg0 0 2 5 10 buyCexState)).kittyCnt = buyCexState.kittyCnt ∧
     (postState buyCexState (buyKitty cfg0 0 2 5 10 buyCexState)).kitties = buyCexState.kitties ∧
     (postState buyCexState (buyKitty cfg0 0 2 5 10 buyCexState)).kittiesOwned = buyCexState.kittiesOwned ∧
     (postState buyCexState (buyKitty cfg0 0 2 5 10 buyCexState)).dnaToKitty = buyCexState.dnaToKitty ∧
     (postState buyCexState (buyKitty cfg0 0 2 5 10 buyCexState)).balances = buyCexState.balances) :=
  ⟨by decide, by decide,
   buy_all_or_nothing cfg0 0 2 5 10 buyCexState Error.KittyNotExist (by decide)⟩

/-- C2: a successful mint returns an id that was absent beforehand, maps
it to the newly constructed asset (price and name both `none`)
afterwards, and increments the counter by exactly one. -/
theorem mint_fresh_and_counted (cfg : Cfg) (hashOf : Kitty → Nat) (gd : List Nat)
    (gg : Gender) (owner : Nat) (dna : Option (List Nat)) (gender : Option Gender)
    (s : State) (id : Nat) (s2 : State)
    (h : mint cfg hashOf gd gg owner dna gender s = .ok (id, s2)) :
    alookup id s.kitties = none ∧
    alookup id s2.kitties = some (mintedKitty gd gg owner dna gender) ∧
    (mintedKitty gd gg owner dna gender).price = none ∧
    (mintedKitty gd gg owner dna gender).name = none ∧
    s2.kittyCnt = s.kittyCnt + 1 := by
  obtain ⟨hid, hcnt, hfresh, hcap, hs2⟩ :=
    (mint_ok_iff cfg hashOf gd gg owner dna gender s id s2).mp h
  subst hs2
  refine ⟨hfresh, ?_, rfl, rfl, rfl⟩
  show alookup id (ainsert (hashOf (mintedKitty gd gg owner dna gender))
      (mintedKitty gd gg owner dna gender) s.kitties) =
    some (mintedKitty gd gg owner dna gender)
  rw [alookup_ainsert, if_pos hid]

/-- Witness for C2: a concrete mint from the empty state. -/
theorem mint_fresh_and_counted_witness :
    mint cfg0 hashHead [] Gender.Male 1 (some [7, 2]) (some Gender.Female) emptyState =
      .ok (7, mintedState hashHead [] Gender.Male 1 (some [7, 2]) (some Gender.Female) emptyState) ∧
    (alookup 7 emptyState.kitties = none ∧
     alookup 7 (mintedState hashHead [] Gender.Male 1 (some [7, 2]) (some Gender.Female) emptyState).kitties =
       some (mintedKitty [] Gender.Male 1 (some [7, 2]) (some Gender.Female)) ∧
     (mintedKitty [] Gender.Male 1 (some [7, 2]) (some Gender.Female)).price = none ∧
     (mintedKitty [] Gender.Male 1 (some [7, 2]) (some Gender.Female)).name = none ∧
     (mintedState hashHead [] Gender.Male 1 (some [7, 2]) (some Gender.Female) emptyState).kittyCnt =
       emptyState.kittyCnt + 1) :=
  ⟨by decide,
   mint_fresh_and_counted cfg0 hashHead [] Gender.Male 1 (some [7, 2]) (some Gender.Female)
     emptyState 7 _ (by decide)⟩

/-- C3: the bred dna combines the parents byte by byte as
`(R AND d1) OR (NOT R AND d2)`, equivalently bit by bit the child
inherits parent1's bit where `R` has a 1 bit and parent2's otherwise. -/
theorem breed_dna_crossover (p1 p2 : Nat) (r : List Nat) (s : State) (k1 k2 : Kitty)
    (child : List Nat)
    (hk1 : alookup p1 s.kitties = some k1) (hk2 : alookup p2 s.kitties = some k2)
    (h : breedDna p1 p2 r s = .ok child)
    (hr : ∀ x ∈ r, x < 256) (hd1 : ∀ x ∈ k1.dna, x < 256) (hd2 : ∀ x ∈ k2.dna, x < 256) :
    child = combineDna r k1.dna k2.dna ∧
    ∀ i, i < child.length →
      (child.getD i 0 =
        ((r.getD i 0) &&& (k1.dna.getD i 0)) |||
          ((255 ^^^ (r.getD i 0)) &&& (k2.dna.getD i 0))) ∧
      ∀ j, (child.getD i 0).testBit j =
        if (r.getD i 0).testBit j then (k1.dna.getD i 0).testBit j
        else (k2.dna.getD i 0).testBit j := by
  have hch : child = combineDna r k1.dna k2.dna := by
    simp only [breedDna, hk1, hk2] at h
    injection h with h2
    exact h2.symm
  subst hch
  refine ⟨rfl, ?_⟩
  intro i hi
  obtain ⟨hlr, hl1, hl2⟩ := combineDna_length r k1.dna k2.dna
  have hir : i < r.length := Nat.lt_of_lt_of_le hi hlr
  have hi1 : i < k1.dna.length := Nat.lt_of_lt_of_le hi hl1
  have hi2 : i < k2.dna.length := Nat.lt_of_lt_of_le hi hl2
  have hgd := combineDna_getD r k1.dna k2.dna i hi
  constructor
  · rw [hgd]
    rfl
  · intro j
    rw [hgd]
    exact byteCombine_testBit (hr _ (getD_mem_of_lt hir)) (hd1 _ (getD_mem_of_lt hi1))
      (hd2 _ (getD_mem_of_lt hi2)) j

/-- Two full-width parents for the crossover witness. -/
def crossState : State :=
  { kittyCnt := 2,
    kitties :=
      [(1, { dna := [0, 1, 2, 3, 4, 5, 6, 7, 8, 9, 10, 11, 12, 13, 14, 255],
             price := none, gender := Gender.Male, owner := 1, name := none }),
       (2, { dna := [255, 254, 253, 252, 251, 250, 249, 248, 247, 246, 245, 244, 243, 242, 241, 0],
             price := none, gender := Gender.Female, owner := 1, name := none })],
    kittiesOwned := [(1, [1, 2])],
    dnaToKitty := [],
    balances := [] }

/-- The random draw for the crossover witness. -/
def crossR : List Nat :=
  [255, 0, 170, 85, 129, 37, 250, 13, 99, 200, 18, 77, 146, 63, 192, 128]

/-- Witness for C3: the crossover equations hold for a concrete breed. -/
theorem breed_dna_crossover_witness :
    breedDna 1 2 crossR crossState =
      .ok (combineDna crossR
        [0, 1, 2, 3, 4, 5, 6, 7, 8, 9, 10, 11, 12, 13, 14, 255]
        [255, 254, 253, 252, 251, 250, 249, 248, 247, 246, 245, 244, 243, 242, 241, 0]) ∧
    (combineDna crossR
        [0, 1, 2, 3, 4, 5, 6, 7, 8, 9, 10, 11, 12, 13, 14, 255]
        [255, 254, 253, 252, 251, 250, 249, 248, 247, 246, 245, 244, 243, 242, 241, 0] =
      combineDna crossR
        [0, 1, 2, 3, 4, 5, 6, 7, 8, 9, 10, 11, 12, 13, 14, 255]
        [255, 254, 253, 252, 251, 250, 249, 248, 247, 246, 245, 244, 243, 242, 241, 0] ∧
     ∀ i, i < (combineDna crossR
        [0, 1, 2, 3, 4, 5, 6, 7, 8, 9, 10, 11, 12, 13, 14, 255]
        [255, 254, 253, 252, 251, 250, 249, 248, 247, 246, 245, 244, 243, 242, 241, 0]).length →
      ((combineDna crossR
        [0, 1, 2, 3, 4, 5, 6, 7, 8, 9, 10, 11, 12, 13, 14, 255]
        [255, 254, 253, 252, 251, 250, 249, 248, 247, 246, 245, 244, 243, 242, 241, 0]).getD i 0 =
        ((crossR.getD i 0) &&&
          (([0, 1, 2, 3, 4, 5, 6, 7, 8, 9, 10, 11, 12, 13, 14, 255] : List Nat).getD i 0)) |||
          ((255 ^^^ (crossR.getD i 0)) &&&
            (([255, 254, 253, 252, 251, 250, 249, 248, 247, 246, 245, 244, 243, 242, 241, 0] : List Nat).getD i 0))) ∧
      ∀ j, ((combineDna crossR
        [0, 1, 2, 3, 4, 5, 6, 7, 8, 9, 10, 11, 12, 13, 14, 255]
        [255, 254, 253, 252, 251, 250, 249, 248, 247, 246, 245, 244, 243, 242, 241, 0]).getD i 0).testBit j =
        if (crossR.getD i 0).testBit j then
          (([0, 1, 2, 3, 4, 5, 6, 7, 8, 9, 10, 11, 12, 13, 14, 255] : List Nat).getD i 0).testBit j
        else
          (([255, 254, 253, 252, 251, 250, 249, 248, 247, 246, 245, 244, 243, 242, 241, 0] : List Nat).getD i 0).testBit j) :=
  ⟨by decide,
   breed_dna_crossover 1 2 crossR crossState
     { dna := [0, 1, 2, 3, 4, 5, 6, 7, 8, 9, 10, 11, 12, 13, 14, 255],
       price := none, gender := Gender.Male, owner := 1, name := none }
     { dna := [255, 254, 253, 252, 251, 250, 249, 248, 247, 246, 245, 244, 243, 242, 241, 0],
       price := none, gender := Gender.Female, owner := 1, name := none }
     (combineDna crossR
        [0, 1, 2, 3, 4, 5, 6, 7, 8, 9, 10, 11, 12, 13, 14, 255]
        [255, 254, 253, 252, 251, 250, 249, 248, 247, 246, 245, 244, 243, 242, 241, 0])
     (by decide) (by decide) (by decide) (by decide) (by decide) (by decide)⟩
/-- A state with two opposite-gender parents owned by account 1, for
breeding scenarios. -/
def breedState : State :=
  { kittyCnt := 2,
    kitties := [(1, { dna := [3], price := none, gender := Gender.Male, owner := 1, name := none }),
                (2, { dna := [4], price := none, gender := Gender.Female, owner := 1, name := none })],
    kittiesOwned := [(1, [1, 2])],
    dnaToKitty := [([3], 1), ([4], 2)],
    balances := [] }

/-- C4 counterexample: a successful `breed_kitty` call emits no
notification at all — in particular no `Created` for the child — even
though the child was minted, contradicting the claim that every
successful mint (breed included) emits a Created notification. -/
theorem breed_emits_no_event_cex :
    successEvents (breedKitty cfg0 hashHead [255] Gender.Male 1 1 2 breedState) =
      some [] := by decide

/-- C4 amended: a successful `create_kitty` emits exactly one `Created`
notification carrying the owner and the minted id, but a successful
`breed_kitty`, although it mints the child through the same helper,
deposits no notification. -/
theorem created_event_amended :
    (∀ (cfg : Cfg) (hashOf : Kitty → Nat) (gd : List Nat) (gg : Gender) (sender : Nat)
       (s s2 : State) (evs : List Event),
        createKitty cfg hashOf gd gg sender s = .ok (s2, evs) →
        ∃ id, mint cfg hashOf gd gg sender none none s = .ok (id, s2) ∧
          evs = [Event.Created sender id]) ∧
    (∀ (cfg : Cfg) (hashOf : Kitty → Nat) (r : List Nat) (gg : Gender) (sender p1 p2 : Nat)
       (s s2 : State) (evs : List Event),
        breedKitty cfg hashOf r gg sender p1 p2 s = .ok (s2, evs) → evs = []) := by
  constructor
  · intro cfg hashOf gd gg sender s s2 evs h
    exact createKitty_ok_elim h
  · intro cfg hashOf r gg sender p1 p2 s s2 evs h
    obtain ⟨newDna, id, hm, he⟩ := breedKitty_ok_elim h
    exact he

/-- Witness for the amended C4: a concrete create emits its Created
event; a concrete breed emits nothing. -/
theorem created_event_amended_witness :
    createKitty cfg0 hashHead [9] Gender.Male 4 emptyState =
      .ok (mintedState hashHead [9] Gender.Male 4 none none emptyState, [Event.Created 4 9]) ∧
    (∃ id, mint cfg0 hashHead [9] Gender.Male 4 none none emptyState =
       .ok (id, mintedState hashHead [9] Gender.Male 4 none none emptyState) ∧
       [Event.Created 4 9] = [Event.Created 4 id]) ∧
    breedKitty cfg0 hashHead [255] Gender.Male 1 1 2 breedState =
      .ok (mintedState hashHead [] Gender.Male 1 (some (combineDna [255] [3] [4])) none breedState, []) ∧
    ([] : List Event) = [] :=
  ⟨by decide,
   created_event_amended.1 cfg0 hashHead [9] Gender.Male 4 emptyState
     (mintedState hashHead [9] Gender.Male 4 none none emptyState)
     [Event.Created 4 9] (by decide),
   by decide,
   created_event_amended.2 cfg0 hashHead [255] Gender.Male 1 1 2 breedState
     (mintedState hashHead [] Gender.Male 1 (some (combineDna [255] [3] [4])) none breedState)
     [] (by decide)⟩

/-- C5: after any successful direct transfer or buy, the affected
asset's price is `none`, whatever it was before. -/
theorem transfer_family_resets_price :
    (∀ (cfg : Cfg) (sender dest kid : Nat) (s s2 : State) (evs : List Event),
        transferCall cfg sender dest kid s = .ok (s2, evs) →
        ∃ k, alookup kid s2.kitties = some k ∧ k.price = none) ∧
    (∀ (cfg : Cfg) (ed buyer kid bid : Nat) (s s2 : State) (evs : List Event),
        buyKitty cfg ed buyer kid bid s = .ok (s2, evs) →
        ∃ k, alookup kid s2.kitties = some k ∧ k.price = none) := by
  have key : ∀ (cfg : Cfg) (kid dest : Nat) (s s2 : State),
      transferKittyTo cfg kid dest s = .ok s2 →
      ∃ k, alookup kid s2.kitties = some k ∧ k.price = none := by
    intro cfg kid dest s s2 h
    obtain ⟨kitty, ind, hk, hfind, hcap, rfl⟩ := transferKittyTo_ok_elim h
    refine ⟨{ kitty with owner := dest, price := none }, ?_, rfl⟩
    rw [transferredState_alookup, if_pos rfl]
  constructor
  · intro cfg sender dest kid s s2 evs h
    exact key cfg kid dest s s2 (transferCall_ok_elim h).1
  · intro cfg ed buyer kid bid s s2 evs h
    obtain ⟨bals2, ht⟩ := buyKitty_ok_elim h
    exact key cfg kid buyer _ s2 ht

/-- A priced asset for the transfer witness. -/
def xferState : State :=
  { kittyCnt := 1,
    kitties := [(1, { dna := [1], price := some 5, gender := Gender.Male, owner := 1, name := none })],
    kittiesOwned := [(1, [1])],
    dnaToKitty := [([1], 1)],
    balances := [] }

/-- A priced asset with a funded buyer for the buy witness. -/
def buyOkState : State :=
  { kittyCnt := 1,
    kitties := [(1, { dna := [1], price := some 10, gender := Gender.Male, owner := 1, name := none })],
    kittiesOwned := [(1, [1])],
    dnaToKitty := [([1], 1)],
    balances := [(2, 100)] }

/-- Witness for C5: a concrete transfer and a concrete buy, both of an
asset priced beforehand, end with `price = none`. -/
theorem transfer_family_resets_price_witness :
    transferCall cfg0 1 2 1 xferState =
      .ok (transferredState 1 2
          { dna := [1], price := some 5, gender := Gender.Male, owner := 1, name := none }
          0 xferState, [Event.Transferred 1 2 1]) ∧
    (∃ k, alookup 1 (transferredState 1 2
          { dna := [1], price := some 5, gender := Gender.Male, owner := 1, name := none }
          0 xferState).kitties = some k ∧ k.price = none) ∧
    buyKitty cfg0 0 2 1 10 buyOkState =
      .ok (transferredState 1 2
          { dna := [1], price := some 10, gender := Gender.Male, owner := 1, name := none }
          0 { buyOkState with balances := [(2, 90), (1, 10)] }, [Event.Bought 2 1 1 10]) ∧
    (∃ k, alookup 1 (transferredState 1 2
          { dna := [1], price := some 10, gender := Gender.Male, owner := 1, name := none }
          0 { buyOkState with balances := [(2, 90), (1, 10)] }).kitties =
        some k ∧ k.price = none) :=
  ⟨by decide,
   transfer_family_resets_price.1 cfg0 1 2 1 xferState
     (transferredState 1 2
       { dna := [1], price := some 5, gender := Gender.Male, owner := 1, name := none }
       0 xferState)
     [Event.Transferred 1 2 1] (by decide),
   by decide,
   transfer_family_resets_price.2 cfg0 0 2 1 10 buyOkState
     (transferredState 1 2
       { dna := [1], price := some 10, gender := Gender.Male, owner := 1, name := none }
       0 { buyOkState with balances := [(2, 90), (1, 10)] })
     [Event.Bought 2 1 1 10] (by decide)⟩
/-- C6: in every state reachable from genesis through the public
operations, every id in the asset map appears in its recorded owner's
index entry and in no other account's entry, and every id listed in any
account's entry is an existing asset. -/
theorem reachable_owner_bijection (cfg : Cfg) (ed : Nat) (s : State)
    (h : Reachable cfg ed s) :
    (∀ id k, alookup id s.kitties = some k →
       id ∈ getOwned s k.owner ∧ ∀ a, id ∈ getOwned s a → a = k.owner) ∧
    (∀ a id, id ∈ getOwned s a → ∃ k, alookup id s.kitties = some k) := by
  obtain ⟨h1, h2, h3⟩ := reachable_inv h
  exact ⟨h1, h2⟩

/-- A one-mint reachable state for the C6 witness. -/
def reachedState : State :=
  mintedState hashHead [] Gender.Male 1 (some [7, 2]) (some Gender.Female) emptyState

/-- Witness for C6: the bijection holds in a concrete reachable state
obtained by one mint step from genesis. -/
theorem reachable_owner_bijection_witness :
    Reachable cfg0 0 reachedState ∧
    ((∀ id k, alookup id reachedState.kitties = some k →
        id ∈ getOwned reachedState k.owner ∧
        ∀ a, id ∈ getOwned reachedState a → a = k.owner) ∧
     (∀ a id, id ∈ getOwned reachedState a →
        ∃ k, alookup id reachedState.kitties = some k)) :=
  have hr : Reachable cfg0 0 reachedState :=
    Reachable.step (Reachable.genesis [])
      (Step.mintStep hashHead [] Gender.Male 1 (some [7, 2]) (some Gender.Female)
        emptyState 7 reachedState (by decide))
  ⟨hr, reachable_owner_bijection cfg0 0 reachedState hr⟩

/-- C7: `buy_kitty` checks its preconditions in source order and reports
the first violated one: missing asset, buyer already the owner, not for
sale, bid below ask, buyer balance below bid, buyer index at capacity. -/
theorem buy_error_order (cfg : Cfg) (ed buyer kid bid : Nat) (s : State) :
    (alookup kid s.kitties = none →
      buyKitty cfg ed buyer kid bid s = .error .KittyNotExist) ∧
    (∀ k, alookup kid s.kitties = some k → k.owner = buyer →
      buyKitty cfg ed buyer kid bid s = .error .BuyerIsKittyOwner) ∧
    (∀ k, alookup kid s.kitties = some k → k.owner ≠ buyer → k.price = none →
      buyKitty cfg ed buyer kid bid s = .error .KittyNotForSale) ∧
    (∀ k ask, alookup kid s.kitties = some k → k.owner ≠ buyer → k.price = some ask →
      bid < ask → buyKitty cfg ed buyer kid bid s = .error .KittyBidPriceTooLow) ∧
    (∀ k ask, alookup kid s.kitties = some k → k.owner ≠ buyer → k.price = some ask →
      ask ≤ bid → freeBalance s buyer < bid →
      buyKitty cfg ed buyer kid bid s = .error .NotEnoughBalance) ∧
    (∀ k ask, alookup kid s.kitties = some k → k.owner ≠ buyer → k.price = some ask →
      ask ≤ bid → bid ≤ freeBalance s buyer →
      cfg.maxKittyOwned ≤ (getOwned s buyer).length →
      buyKitty cfg ed buyer kid bid s = .error .ExceedMaxKittyOwned) := by
  refine ⟨?_, ?_, ?_, ?_, ?_, ?_⟩
  · intro h
    simp [buyKitty, h]
  · intro k hk hko
    simp [buyKitty, hk, hko]
  · intro k hk hko hp
    simp [buyKitty, hk, hko, hp]
  · intro k ask hk hko hp hbid
    simp [buyKitty, hk, hko, hp, Nat.not_le.mpr hbid]
  · intro k ask hk hko hp hask hbal
    simp [buyKitty, hk, hko, hp, hask, Nat.not_le.mpr hbal]
  · intro k ask hk hko hp hask hbal hcap
    simp [buyKitty, hk, hko, hp, hask, hbal, Nat.not_lt.mpr hcap]

/-- Asset owned by the would-be buyer (for the BuyerIsKittyOwner case). -/
def buySelfState : State :=
  { kittyCnt := 1,
    kitties := [(1, { dna := [1], price := some 10, gender := Gender.Male, owner := 2, name := none })],
    kittiesOwned := [(2, [1])], dnaToKitty := [([1], 1)], balances := [] }

/-- Unpriced asset (for the KittyNotForSale case). -/
def buyNoSaleState : State :=
  { kittyCnt := 1,
    kitties := [(1, { dna := [1], price := none, gender := Gender.Male, owner := 1, name := none })],
    kittiesOwned := [(1, [1])], dnaToKitty := [([1], 1)], balances := [] }

/-- Asset priced above the bid (for the KittyBidPriceTooLow case). -/
def buyLowBidState : State :=
  { kittyCnt := 1,
    kitties := [(1, { dna := [1], price := some 20, gender := Gender.Male, owner := 1, name := none })],
    kittiesOwned := [(1, [1])], dnaToKitty := [([1], 1)], balances := [] }

/-- Priced asset with an unfunded buyer (for the NotEnoughBalance case). -/
def buyPoorState : State :=
  { kittyCnt := 1,
    kitties := [(1, { dna := [1], price := some 10, gender := Gender.Male, owner := 1, name := none })],
    kittiesOwned := [(1, [1])], dnaToKitty := [([1], 1)], balances := [] }

/-- Priced asset, funded buyer already at capacity (ExceedMaxKittyOwned). -/
def buyFullState : State :=
  { kittyCnt := 4,
    kitties := [(1, { dna := [1], price := some 10, gender := Gender.Male, owner := 1, name := none })],
    kittiesOwned := [(1, [1]), (2, [7, 8, 9])], dnaToKitty := [([1], 1)],
    balances := [(2, 100)] }

/-- Witness for C7: each precondition failure at a concrete input
reports exactly the error of its position in the check order. -/
theorem buy_error_order_witness :
    alookup 1 emptyState.kitties = none ∧
    buyKitty cfg0 0 2 1 10 emptyState = .error .KittyNotExist ∧
    buyKitty cfg0 0 2 1 10 buySelfState = .error .BuyerIsKittyOwner ∧
    buyKitty cfg0 0 2 1 10 buyNoSaleState = .error .KittyNotForSale ∧
    buyKitty cfg0 0 2 1 10 buyLowBidState = .error .KittyBidPriceTooLow ∧
    buyKitty cfg0 0 2 1 10 buyPoorState = .error .NotEnoughBalance ∧
    buyKitty cfg0 0 2 1 10 buyFullState = .error .ExceedMaxKittyOwned :=
  ⟨by decide,
   (buy_error_order cfg0 0 2 1 10 emptyState).1 (by decide),
   (buy_error_order cfg0 0 2 1 10 buySelfState).2.1
     { dna := [1], price := some 10, gender := Gender.Male, owner := 2, name := none }
     (by decide) (by decide),
   (buy_error_order cfg0 0 2 1 10 buyNoSaleState).2.2.1
     { dna := [1], price := none, gender := Gender.Male, owner := 1, name := none }
     (by decide) (by decide) (by decide),
   (buy_error_order cfg0 0 2 1 10 buyLowBidState).2.2.2.1
     { dna := [1], price := some 20, gender := Gender.Male, owner := 1, name := none }
     20 (by decide) (by decide) (by decide) (by decide),
   (buy_error_order cfg0 0 2 1 10 buyPoorState).2.2.2.2.1
     { dna := [1], price := some 10, gender := Gender.Male, owner := 1, name := none }
     10 (by decide) (by decide) (by decide) (by decide) (by decide),
   (buy_error_order cfg0 0 2 1 10 buyFullState).2.2.2.2.2
     { dna := [1], price := some 10, gender := Gender.Male, owner := 1, name := none }
     10 (by decide) (by decide) (by decide) (by decide) (by decide) (by decide)⟩

/-- C8: for the owner of an existing asset, a name below the minimum
length fails NameTooShort, one above the maximum fails NameTooLong, and
one of exactly the minimum or exactly the maximum length succeeds and
stores those bytes (for a configuration with min ≤ max). -/
theorem name_length_validation (cfg : Cfg) (sender kid : Nat) (nm : List Nat)
    (s : State) (k : Kitty)
    (hk : alookup kid s.kitties = some k) (how : k.owner = sender)
    (hmn : cfg.minNameLength ≤ cfg.maxNameLength) :
    (nm.length < cfg.minNameLength → nameKitty cfg sender kid nm s = .error .NameTooShort) ∧
    (cfg.maxNameLength < nm.length → nameKitty cfg sender kid nm s = .error .NameTooLong) ∧
    ((nm.length = cfg.minNameLength ∨ nm.length = cfg.maxNameLength) →
      nameKitty cfg sender kid nm s =
        .ok ({ s with kitties := ainsert kid { k with name := some nm } s.kitties }, [])) := by
  refine ⟨?_, ?_, ?_⟩
  · intro hshort
    have hle : nm.length ≤ cfg.maxNameLength := le_trans (Nat.le_of_lt hshort) hmn
    simp [nameKitty, isKittyOwner, addKittyName, hk, how, hle, Nat.not_le.mpr hshort]
  · intro hlong
    simp [nameKitty, isKittyOwner, addKittyName, hk, how, Nat.not_le.mpr hlong]
  · intro hcase
    have hle : nm.length ≤ cfg.maxNameLength := by
      cases hcase with
      | inl h2 => rw [h2]; exact hmn
      | inr h2 => rw [h2]
    have hge : cfg.minNameLength ≤ nm.length := by
      cases hcase with
      | inl h2 => rw [h2]
      | inr h2 => rw [h2]; exact hmn
    simp [nameKitty, isKittyOwner, addKittyName, hk, how, hle, hge]

/-- The witness kitty of `xferState` with a name set. -/
def namedKitty (nm : List Nat) : Kitty :=
  { dna := [1], price := some 5, gender := Gender.Male, owner := 1, name := some nm }

/-- Witness for C8: at the configured bounds 2 and 5, a 1-byte name is
too short, a 6-byte name too long, and names of 2 and 5 bytes succeed. -/
theorem name_length_validation_witness :
    alookup 1 xferState.kitties =
      some { dna := [1], price := some 5, gender := Gender.Male, owner := 1, name := none } ∧
    nameKitty cfg0 1 1 [65] xferState = .error .NameTooShort ∧
    nameKitty cfg0 1 1 [65, 66, 67, 68, 69, 70] xferState = .error .NameTooLong ∧
    nameKitty cfg0 1 1 [65, 66] xferState =
      .ok ({ xferState with kitties := ainsert 1 (namedKitty [65, 66]) xferState.kitties }, []) ∧
    nameKitty cfg0 1 1 [65, 66, 67, 68, 69] xferState =
      .ok ({ xferState with kitties := ainsert 1 (namedKitty [65, 66, 67, 68, 69]) xferState.kitties }, []) :=
  ⟨by decide,
   (name_length_validation cfg0 1 1 [65] xferState
     { dna := [1], price := some 5, gender := Gender.Male, owner := 1, name := none }
     (by decide) (by decide) (by decide)).1 (by decide),
   (name_length_validation cfg0 1 1 [65, 66, 67, 68, 69, 70] xferState
     { dna := [1], price := some 5, gender := Gender.Male, owner := 1, name := none }
     (by decide) (by decide) (by decide)).2.1 (by decide),
   (name_length_validation cfg0 1 1 [65, 66] xferState
     { dna := [1], price := some 5, gender := Gender.Male, owner := 1, name := none }
     (by decide) (by decide) (by decide)).2.2 (Or.inl (by decide)),
   (name_length_validation cfg0 1 1 [65, 66, 67, 68, 69] xferState
     { dna := [1], price := some 5, gender := Gender.Male, owner := 1, name := none }
     (by decide) (by decide) (by decide)).2.2 (Or.inr (by decide))⟩

/-- C9: a successful mint writes `dnaIndex[dna] := newId` unconditionally;
a pre-existing entry for the same dna is silently overwritten so that
the dna lookup afterwards returns the newer id, while every other asset
(the older one included) is untouched in the asset map. -/
theorem mint_dna_index_overwrite (cfg : Cfg) (hashOf : Kitty → Nat) (gd : List Nat)
    (gg : Gender) (owner : Nat) (dna : Option (List Nat)) (gender : Option Gender)
    (s : State) (id : Nat) (s2 : State) (oldId : Nat)
    (_hold : fetchKittyId s (dna.getD gd) = some oldId)
    (h : mint cfg hashOf gd gg owner dna gender s = .ok (id, s2)) :
    fetchKittyId s2 (dna.getD gd) = some id ∧
    (∀ j, j ≠ id → alookup j s2.kitties = alookup j s.kitties) := by
  obtain ⟨hid, hcnt, hfresh, hcap, hs2⟩ :=
    (mint_ok_iff cfg hashOf gd gg owner dna gender s id s2).mp h
  subst hs2
  constructor
  · show alookup (dna.getD gd)
      (ainsert (dna.getD gd) (hashOf (mintedKitty gd gg owner dna gender)) s.dnaToKitty) = some id
    rw [alookup_ainsert, if_pos rfl, hid]
  · intro j hj
    show alookup j (ainsert (hashOf (mintedKitty gd gg owner dna gender))
        (mintedKitty gd gg owner dna gender) s.kitties) = alookup j s.kitties
    rw [alookup_ainsert, if_neg ?_]
    rw [← hid]
    exact hj

/-- Asset 1 already occupies the dna-index entry for `[7, 2]`. -/
def dnaCollState : State :=
  { kittyCnt := 1,
    kitties := [(1, { dna := [7, 2], price := none, gender := Gender.Male, owner := 1, name := none })],
    kittiesOwned := [(1, [1])],
    dnaToKitty := [([7, 2], 1)],
    balances := [] }

/-- Witness for C9: minting a second asset with the colliding dna
`[7, 2]` succeeds, repoints the dna index to the new id 7, and leaves
the older asset 1 in place. -/
theorem mint_dna_index_overwrite_witness :
    fetchKittyId dnaCollState [7, 2] = some 1 ∧
    mint cfg0 hashHead [] Gender.Male 2 (some [7, 2]) (some Gender.Male) dnaCollState =
      .ok (7, mintedState hashHead [] Gender.Male 2 (some [7, 2]) (some Gender.Male) dnaCollState) ∧
    alookup 1 (mintedState hashHead [] Gender.Male 2 (some [7, 2]) (some Gender.Male) dnaCollState).kitties =
      some { dna := [7, 2], price := none, gender := Gender.Male, owner := 1, name := none } ∧
    (fetchKittyId (mintedState hashHead [] Gender.Male 2 (some [7, 2]) (some Gender.Male) dnaCollState) [7, 2] =
       some 7 ∧
     (∀ j, j ≠ 7 →
        alookup j (mintedState hashHead [] Gender.Male 2 (some [7, 2]) (some Gender.Male) dnaCollState).kitties =
          alookup j dnaCollState.kitties)) :=
  ⟨by decide, by decide, by decide,
   mint_dna_index_overwrite cfg0 hashHead [] Gender.Male 2 (some [7, 2]) (some Gender.Male)
     dnaCollState 7 _ 1 (by decide) (by decide)⟩

/-- C10: breeding an existing, caller-owned asset with itself always
fails with SameSex (an asset's gender equals itself) and under the
dispatch semantics leaves the state unchanged — no child is minted. -/
theorem breed_same_parent_samesex (cfg : Cfg) (hashOf : Kitty → Nat) (r : List Nat)
    (gg : Gender) (sender p : Nat) (s : State) (k : Kitty)
    (hk : alookup p s.kitties = some k) (how : k.owner = sender) :
    breedKitty cfg hashOf r gg sender p p s = .error .SameSex ∧
    postState s (breedKitty cfg hashOf r gg sender p p s) = s := by
  have h1 : breedKitty cfg hashOf r gg sender p p s = .error .SameSex := by
    simp [breedKitty, isKittyOwner, hk, how]
  refine ⟨h1, ?_⟩
  rw [h1]
  rfl

/-- Witness for C10: breeding kitty 1 with itself fails SameSex and
changes nothing. -/
theorem breed_same_parent_samesex_witness :
    alookup 1 breedState.kitties =
      some { dna := [3], price := none, gender := Gender.Male, owner := 1, name := none } ∧
    (breedKitty cfg0 hashHead [255] Gender.Male 1 1 1 breedState = .error .SameSex ∧
     postState breedState (breedKitty cfg0 hashHead [255] Gender.Male 1 1 1 breedState) =
       breedState) :=
  ⟨by decide,
   breed_same_parent_samesex cfg0 hashHead [255] Gender.Male 1 1 breedState
     { dna := [3], price := none, gender := Gender.Male, owner := 1, name := none }
     (by decide) (by decide)⟩

end Kitties
